import Mathlib

/-!
Verification of the data-reconciliation layer of the Yakima basin dashboard
(`src/app.js`, with a second variant of the USBR CSV parser in
`src/unnamed/part_000`).

Shallow embedding conventions:
* a JS `{time, value}` sample is `Sample` with `time : Int` (milliseconds
  since the epoch, as produced by `Date.prototype.getTime`) and
  `value : Rat` (JS numbers are modelled as exact rationals);
* JS built-ins used by the parsers (`parseFloat`, `new Date(string)` on the
  `YYYY-MM-DD HH:MM[:SS]` shape the feeds emit, `String.prototype.trim`,
  `split`, `toLowerCase`) are modelled by explicit Lean functions below;
* `Array.prototype.sort` (stable since ES2019) is modelled by
  `List.insertionSort`, which is stable, hence extensionally identical to
  any other stable sort under the same comparator;
* fallible provider fetches are modelled by a `FetchOutcome` sum type.
-/

/-- rational addition computed through `mkRat`.  `Batteries` marks
`Rat.add` (and `sub`, `mul`, `inv`) `@[irreducible]`, which blocks kernel
evaluation of concrete instances; the embedding therefore computes with
these wrappers, and `jsAdd_eq` identifies them with the standard
operations. -/
def jsAdd (a b : Rat) : Rat := mkRat (a.num * b.den + b.num * a.den) (a.den * b.den)

/-- rational subtraction computed through `mkRat`; see `jsAdd`. -/
def jsSub (a b : Rat) : Rat := mkRat (a.num * b.den - b.num * a.den) (a.den * b.den)

/-- rational multiplication computed through `mkRat`; see `jsAdd`. -/
def jsMul (a b : Rat) : Rat := mkRat (a.num * b.num) (a.den * b.den)

/-- rational division computed through `Rat.divInt`; see `jsAdd`. -/
def jsDiv (a b : Rat) : Rat := Rat.divInt (a.num * (b.den : Int)) ((a.den : Int) * b.num)

/-- a `{time, value}` point: `time` in epoch milliseconds, `value` a JS
number modelled as a rational. -/
structure Sample where
  time  : Int
  value : Rat
  deriving Repr, DecidableEq

/-- the series fragments produced by the station-data parsers
(`parseUSGSJSON`, `parseUSBRCSV`): discharge, water temperature and gage
height sample lists. -/
structure SeriesSet where
  discharge  : List Sample
  waterTemp  : List Sample
  gageHeight : List Sample
  deriving Repr, DecidableEq

/-- an all-empty `SeriesSet`, the `(result ?? ...)` default in `refresh`
and the early-return value of `parseUSBRCSV`. -/
def SeriesSet.empty : SeriesSet := ⟨[], [], []⟩

-- =====================================================================
-- Time-series utilities (src/app.js lines 128-153)
-- =====================================================================

/-- `getLatestValue` (src/app.js:128): `values.reduce((best, v) =>
v.time > best.time ? v : best)`, guarded to `null` on an empty or missing
list.  A JS `reduce` with no seed folds the tail over the head. -/
def getLatestValue : List Sample → Option Sample
  | []     => none
  | h :: t => some (t.foldl (fun best v => if v.time > best.time then v else best) h)

/-- the descending-time ordering used by the `(a, b) => b.time - a.time`
comparator in `getTrend`. -/
def timeDesc (a b : Sample) : Prop := b.time ≤ a.time

instance : DecidableRel timeDesc := fun a b => Int.decLe b.time a.time

instance : IsTotal Sample timeDesc := ⟨fun a b => le_total b.time a.time⟩

instance : IsTrans Sample timeDesc := ⟨fun _ _ _ h1 h2 => le_trans h2 h1⟩

/-- the `values.filter(v => v.time.getTime() <= cutoff).sort((a, b) =>
b.time - a.time)[0]` step of `getTrend` (src/app.js:138-140): the filtered
samples sorted by descending time (stable), then the head, `none` when no
sample is at or before the cutoff. -/
def pastSample (values : List Sample) (cutoff : Int) : Option Sample :=
  (List.insertionSort timeDesc (values.filter (fun v => v.time ≤ cutoff))).head?

/-- `getTrend` (src/app.js:133-146).  `hoursBack` defaults to 24 at the
call sites.  JS `0.10` is modelled as the exact rational `1/10`. -/
def getTrend (values : List Sample) (hoursBack : Int) : String :=
  if values.length < 2 then "stable"
  else
    match getLatestValue values with
    | none => "stable"
    | some latest =>
      let cutoff := latest.time - hoursBack * 3600000
      match pastSample values cutoff with
      | none => "stable"
      | some past =>
        if past.value = 0 then "stable"
        else
          let pct := jsDiv (jsSub latest.value past.value) past.value
          if pct > mkRat 1 10 then "rising"
          else if pct < -(mkRat 1 10) then "falling"
          else "stable"

/-- `downsample` (src/app.js:149-153): keep the array when it already fits,
otherwise keep the elements whose index is divisible by
`Math.ceil(arr.length / maxCount)`.  For `maxCount ≥ 1` the Nat expression
`(len + maxCount - 1) / maxCount` is exactly `Math.ceil(len / maxCount)`;
for `maxCount = 0` JS produces `Infinity` and `i % Infinity === 0` holds
only at `i = 0`, matched here by `step = 0` and `i % 0 = i`. -/
def downsample (arr : List α) (maxCount : Nat) : List α :=
  if arr.length ≤ maxCount then arr
  else
    let step := (arr.length + maxCount - 1) / maxCount
    (arr.enum.filter (fun p => p.1 % step == 0)).map Prod.snd

/-- Modelled from the spec: C2's trend classification exactly as the claim
words it, with the reference cutoff anchored at wall-clock `now - 24h`
(the implementation instead anchors it at the latest sample's
timestamp). -/
def getTrendClaimC2 (now : Int) (values : List Sample) : String :=
  if values.length < 2 then "stable"
  else
    match getLatestValue values with
    | none => "stable"
    | some latest =>
      match pastSample values (now - 86400000) with
      | none => "stable"
      | some past =>
        if past.value = 0 then "stable"
        else
          let pct := jsDiv (jsSub latest.value past.value) past.value
          if pct > mkRat 1 10 then "rising"
          else if pct < -(mkRat 1 10) then "falling"
          else "stable"

-- =====================================================================
-- Models of the JS built-ins the parsers rely on
-- =====================================================================

/-- value of a list of decimal digit characters read left to right. -/
def digitsVal (cs : List Char) : Nat :=
  cs.foldl (fun n c => 10 * n + (c.toNat - 48)) 0

/-- the ASCII whitespace class trimmed and skipped by the JS string
built-ins on these feeds. -/
def isWsChar (c : Char) : Bool :=
  c == ' ' || c == '\t' || c == '\n' || c == '\r'

/-- models `String.prototype.trim`: strip leading and trailing
whitespace. -/
def wsTrim (cs : List Char) : List Char :=
  ((cs.dropWhile isWsChar).reverse.dropWhile isWsChar).reverse

/-- models `String.prototype.split` with a one-character separator: JS
yields the (possibly empty) chunks between separator occurrences, with
`''.split(sep) = ['']`. -/
def splitOnChar (sep : Char) : List Char → List (List Char)
  | [] => [[]]
  | c :: rest =>
    let r := splitOnChar sep rest
    if c == sep then [] :: r
    else
      match r with
      | []     => [[c]]
      | h :: t => (c :: h) :: t

/-- models the JavaScript `parseFloat` built-in on decimal input: optional
leading whitespace, optional sign, a decimal significand (integer digits
and an optional fraction, at least one digit overall), an optional
exponent.  `none` stands for `NaN`.  The JS special form `Infinity` has no
rational counterpart and is outside the model. -/
def jsParseFloatChars (input : List Char) : Option Rat :=
  let cs := input.dropWhile isWsChar
  let signAndRest : Rat × List Char :=
    match cs with
    | '-' :: t => (-1, t)
    | '+' :: t => (1, t)
    | _        => (1, cs)
  let sign := signAndRest.1
  let cs1  := signAndRest.2
  let intPart := cs1.takeWhile Char.isDigit
  let cs2     := cs1.dropWhile Char.isDigit
  let fracAndRest : List Char × List Char :=
    match cs2 with
    | '.' :: t => (t.takeWhile Char.isDigit, t.dropWhile Char.isDigit)
    | _        => ([], cs2)
  let fracPart := fracAndRest.1
  let cs3      := fracAndRest.2
  if intPart.isEmpty && fracPart.isEmpty then none
  else
    let mant : Rat := jsAdd (digitsVal intPart : Rat)
      (mkRat (digitsVal fracPart : Nat) (10 ^ fracPart.length))
    let expo : Int :=
      match cs3 with
      | 'e' :: t | 'E' :: t =>
        match t with
        | '-' :: u =>
          let d := u.takeWhile Char.isDigit
          if d.isEmpty then 0 else -(digitsVal d : Int)
        | '+' :: u =>
          let d := u.takeWhile Char.isDigit
          if d.isEmpty then 0 else (digitsVal d : Int)
        | _ =>
          let d := t.takeWhile Char.isDigit
          if d.isEmpty then 0 else (digitsVal d : Int)
      | _ => 0
    let scale : Rat := ((10 ^ expo.natAbs : Nat) : Rat)
    some (if expo < 0 then jsDiv (jsMul sign mant) scale else jsMul (jsMul sign mant) scale)

/-- `parseFloat` on a whole string. -/
def jsParseFloat (s : String) : Option Rat := jsParseFloatChars s.data

/-- models `new Date(s).getTime()` on the local-time timestamp shape the
USBR and NWRFC feeds emit, `YYYY-MM-DD HH:MM` with optional `:SS`: a
strictly monotone integer encoding of the civil components (the additive
offset to the true epoch is a fixed host-timezone constant that no claim
depends on).  Strings of any other shape map to `none`, the counterpart of
an invalid `Date` whose `getTime()` is `NaN`. -/
def jsDateParseChars (input : List Char) : Option Int :=
  match input with
  | y1 :: y2 :: y3 :: y4 :: '-' :: m1 :: m2 :: '-' :: d1 :: d2 :: ' ' ::
      h1 :: h2 :: ':' :: n1 :: n2 :: rest =>
    if [y1, y2, y3, y4, m1, m2, d1, d2, h1, h2, n1, n2].all Char.isDigit then
      let y  := digitsVal [y1, y2, y3, y4]
      let mo := digitsVal [m1, m2]
      let dy := digitsVal [d1, d2]
      let h  := digitsVal [h1, h2]
      let mi := digitsVal [n1, n2]
      let osec : Option Nat :=
        match rest with
        | [] => some 0
        | ':' :: s1 :: s2 :: [] =>
          if s1.isDigit && s2.isDigit then some (digitsVal [s1, s2]) else none
        | _ => none
      match osec with
      | none => none
      | some sec =>
        if 1 ≤ mo ∧ mo ≤ 12 ∧ 1 ≤ dy ∧ dy ≤ 31 ∧ h ≤ 23 ∧ mi ≤ 59 ∧ sec ≤ 59 then
          some (((((((y * 12 + (mo - 1)) * 31 + (dy - 1)) * 24 + h) * 60 + mi) * 60 + sec) * 1000 : Nat) : Int)
        else none
    else none
  | _ => none

/-- `new Date(s).getTime()` on a whole string. -/
def jsDateParse (s : String) : Option Int := jsDateParseChars s.data

-- =====================================================================
-- parseUSBRCSV (src/app.js:284-316)
-- =====================================================================

/-- `parseFloat(cols[i])`: an out-of-range JS index yields `undefined`,
whose `parseFloat` is `NaN`. -/
def colFloat (cols : List (List Char)) (i : Nat) : Option Rat :=
  match cols[i]? with
  | none    => none
  | some cs => jsParseFloatChars cs

/-- the discharge half of a USBR CSV data row (src/app.js:303-306,
identical in src/unnamed/part_000): append a discharge sample when the
discharge column parses to a non-negative number. -/
def usbrQStep (qIdx : Option Nat) (cols : List (List Char)) (dt : Int)
    (acc : SeriesSet) : SeriesSet :=
  match qIdx with
  | some qi =>
    match colFloat cols qi with
    | some val =>
      if 0 ≤ val then
        { acc with discharge := acc.discharge ++ [⟨dt, val⟩] }
      else acc
    | none => acc
  | none => acc

/-- the water-temperature half of a USBR CSV data row (src/app.js:307-313):
append a Celsius-to-Fahrenheit converted sample when the column parses. -/
def usbrTwStep (twIdx : Option Nat) (cols : List (List Char)) (dt : Int)
    (acc1 : SeriesSet) : SeriesSet :=
  match twIdx with
  | some ti =>
    match colFloat cols ti with
    | some valC =>
      { acc1 with waterTemp :=
          acc1.waterTemp ++ [⟨dt, jsAdd (jsDiv (jsMul valC 9) 5) 32⟩] }
    | none => acc1
  | none => acc1

/-- one data row of the USBR CSV loop (src/app.js:297-314): split on
commas, skip short rows and rows with unparsable timestamps, then apply
the discharge and water-temperature column steps. -/
def usbrRow (qIdx twIdx : Option Nat) (acc : SeriesSet) (line : List Char) : SeriesSet :=
  let cols := splitOnChar ',' line
  if cols.length < 2 then acc
  else
    match jsDateParseChars (wsTrim (cols.headD [])) with
    | none => acc
    | some dt => usbrTwStep twIdx cols dt (usbrQStep qIdx cols dt acc)

/-- `parseUSBRCSV` (src/app.js:284-316): split into trimmed non-empty
lines (JS `filter(Boolean)` drops the empty ones), locate the
case-insensitive `DateTime` header, locate the `{station}_q` /
`{station}_tw` columns by exact or suffix match, then collect per-row
discharge (rejecting negatives) and water temperature (converted Celsius
to Fahrenheit). -/
def parseUSBRCSV (text : String) (stationLower : String) : SeriesSet :=
  let out := SeriesSet.empty
  let lines := ((splitOnChar '\n' text.data).map wsTrim).filter (fun l => !l.isEmpty)
  if lines.length < 2 then out
  else
    match lines.findIdx? (fun l => "datetime".data.isPrefixOf (l.map Char.toLower)) with
    | none => out
    | some headerIdx =>
      let headers := (splitOnChar ',' (lines.getD headerIdx [])).map
        (fun h => (wsTrim h).map Char.toLower)
      let qIdx  := headers.findIdx?
        (fun h => h == stationLower.data ++ "_q".data || "_q".data.isSuffixOf h)
      let twIdx := headers.findIdx?
        (fun h => h == stationLower.data ++ "_tw".data || "_tw".data.isSuffixOf h)
      (lines.drop (headerIdx + 1)).foldl (usbrRow qIdx twIdx) out

-- =====================================================================
-- parseUSBRCSV as defined in src/unnamed/part_000 (lines 277-309)
-- =====================================================================

namespace Part000

/-- `parseUSBRCSV` as defined in `src/unnamed/part_000:277-309`, a second
copy of the dashboard source; transliterated independently from that file
so the two parsers can be compared. -/
def parseUSBRCSV (text : String) (stationLower : String) : SeriesSet :=
  let out := SeriesSet.empty
  let lines := ((splitOnChar '\n' text.data).map wsTrim).filter (fun l => !l.isEmpty)
  if lines.length < 2 then out
  else
    match lines.findIdx? (fun l => "datetime".data.isPrefixOf (l.map Char.toLower)) with
    | none => out
    | some headerIdx =>
      let headers := (splitOnChar ',' (lines.getD headerIdx [])).map
        (fun h => (wsTrim h).map Char.toLower)
      let qIdx  := headers.findIdx?
        (fun h => h == stationLower.data ++ "_q".data || "_q".data.isSuffixOf h)
      let twIdx := headers.findIdx?
        (fun h => h == stationLower.data ++ "_tw".data || "_tw".data.isSuffixOf h)
      (lines.drop (headerIdx + 1)).foldl (usbrRow qIdx twIdx) out

end Part000

-- =====================================================================
-- parseNWRFCTempHTML (src/app.js:350-363)
-- =====================================================================

/-- drop a literal character sequence from the front of `cs`, or fail. -/
def stripLit (lit : String) (cs : List Char) : Option (List Char) :=
  if lit.data.isPrefixOf cs then some (cs.drop lit.data.length) else none

/-- one attempt of the NWRFC data-row regex at the start of `cs`: the
pattern is a `\d4-\d2-\d2 \d2:\d2` timestamp capture, the literal
adjacent-cell markup, then a `\d+\.?\d*` numeral capture (greedy, exactly
as the JS regex matches it).  Returns both captures and the remainder of
the input after the match. -/
def nwrfcMatchAt (cs : List Char) : Option (String × String × List Char) :=
  match cs with
  | y1 :: y2 :: y3 :: y4 :: '-' :: m1 :: m2 :: '-' :: d1 :: d2 :: ' ' ::
      h1 :: h2 :: ':' :: n1 :: n2 :: rest =>
    if [y1, y2, y3, y4, m1, m2, d1, d2, h1, h2, n1, n2].all Char.isDigit then
      match stripLit "</td><td align=\"right\">" rest with
      | none => none
      | some rest2 =>
        let intDigs := rest2.takeWhile Char.isDigit
        let rest3   := rest2.dropWhile Char.isDigit
        if intDigs.isEmpty then none
        else
          let numAndRest : List Char × List Char :=
            match rest3 with
            | '.' :: t => (intDigs ++ '.' :: t.takeWhile Char.isDigit, t.dropWhile Char.isDigit)
            | _        => (intDigs, rest3)
          some (⟨[y1, y2, y3, y4, '-', m1, m2, '-', d1, d2, ' ', h1, h2, ':', n1, n2]⟩,
            ⟨numAndRest.1⟩, numAndRest.2)
    else none
  | _ => none

/-- the repeated `re.exec` loop over the document: successive
non-overlapping matches scanned left to right.  The fuel argument is the
remaining input length; a match consumes at least one character, so fuel
never runs out before the input does. -/
def nwrfcScanAux : Nat → List Char → List (String × String)
  | 0, _ => []
  | _, [] => []
  | fuel + 1, c :: cs =>
    match nwrfcMatchAt (c :: cs) with
    | some (d, v, rest) => (d, v) :: nwrfcScanAux fuel rest
    | none => nwrfcScanAux fuel cs

/-- `parseNWRFCTempHTML` (src/app.js:350-363) with `Date.now()` abstracted
into the `now` parameter: scan the HTML for data-row matches, parse each
timestamp and numeral, and keep the rows at or after
`now - days * 86400000`. -/
def parseNWRFCTempHTML (html : String) (days : Int) (now : Int) : List Sample :=
  let cutoff := now - days * 86400000
  (nwrfcScanAux html.data.length html.data).filterMap (fun m =>
    match jsDateParse m.1, jsParseFloat m.2 with
    | some dt, some val => if dt ≥ cutoff then some (⟨dt, val⟩ : Sample) else none
    | _, _ => none)

-- =====================================================================
-- parseWindyResponse (src/app.js:402-463)
-- =====================================================================

/-- the Kelvin-to-Fahrenheit converter `kToF` (src/app.js:411),
`(k - 273.15) * 9 / 5 + 32`. -/
def kToF (k : Rat) : Rat := jsAdd (jsDiv (jsMul (jsSub k (mkRat 27315 100)) 9) 5) 32

/-- the metres-to-inches converter `mToIn` (src/app.js:412),
`m * 39.3701`. -/
def mToIn (m : Rat) : Rat := jsMul m (mkRat 393701 10000)

/-- the `for` loop choosing the current timestep (src/app.js:421-422):
`curIdx` starts at 0 and is overwritten by every index whose timestamp is
at or before `now`. -/
def currentIndex (ts : List Int) (now : Int) : Nat :=
  ts.enum.foldl (fun cur p => if p.2 ≤ now then p.1 else cur) 0

/-- the month-name table of src/app.js:440. -/
def monthNames : List String :=
  ["Jan", "Feb", "Mar", "Apr", "May", "Jun", "Jul", "Aug", "Sep", "Oct", "Nov", "Dec"]

/-- models the JS `Number` coercion on the all-digit `YYYY`/`MM`/`DD`
pieces of a date key; anything else is `NaN`, modelled as `none`. -/
def jsNumberNat (cs : List Char) : Option Nat :=
  if cs.all Char.isDigit && !cs.isEmpty then some (digitsVal cs) else none

/-- the day label built at src/app.js:445-446 from an `en-CA`
(`YYYY-MM-DD`) date key: `months[mo - 1] + ' ' + dy` after
`key.split('-').map(Number)`.  JS index-out-of-range and `NaN` corners
(impossible for well-formed keys) are modelled by fallback defaults. -/
def labelOfKey (key : String) : String :=
  let parts := splitOnChar '-' key.data
  let mo := (jsNumberNat (parts.getD 1 [])).getD 0
  let dy := (jsNumberNat (parts.getD 2 [])).getD 0
  (monthNames.getD (mo - 1) "undefined") ++ " " ++ toString dy

/-- one `dayMap` bucket: the `{ label, temps, precips }` object of
src/app.js:446. -/
structure DayAgg where
  label   : String
  temps   : List Rat
  precips : List Rat
  deriving Repr, DecidableEq

/-- one refresh of the `dayMap` at index `i` (src/app.js:443-449): create
the bucket on first sight of the key (JS `Map` preserves insertion order),
then push the converted temperature and precipitation. -/
def pushDay : List (String × DayAgg) → String → Rat → Rat → List (String × DayAgg)
  | [], key, t, p => [(key, ⟨labelOfKey key, [t], [p]⟩)]
  | (k, a) :: rest, key, t, p =>
    if k = key then (k, ⟨a.label, a.temps ++ [t], a.precips ++ [p]⟩) :: rest
    else (k, a) :: pushDay rest key t p

/-- `Math.max(...xs)` on a non-empty list (every `dayMap` bucket holds at
least one sample, so the empty case never arises in the source). -/
def listMax : List Rat → Rat
  | [] => 0
  | h :: t => t.foldl max h

/-- `Math.min(...xs)` on a non-empty list; see `listMax`. -/
def listMin : List Rat → Rat
  | [] => 0
  | h :: t => t.foldl min h

/-- one element of the `daily` output of `parseWindyResponse`
(src/app.js:455-460). -/
structure DailyEntry where
  label  : String
  high   : Rat
  low    : Rat
  precip : Rat
  deriving Repr, DecidableEq

/-- structural lexicographic code-point order on character lists: the
effect of the `a.localeCompare(b)` comparator on the all-ASCII
`YYYY-MM-DD` date keys. -/
def lexLeChars : List Char → List Char → Bool
  | [], _ => true
  | _ :: _, [] => false
  | a :: as, b :: bs => if a < b then true else if b < a then false else lexLeChars as bs

/-- the ascending ordering of `dayMap` entries by date key used by the
`([a], [b]) => a.localeCompare(b)` comparator (src/app.js:453). -/
def keyLE (a b : String × DayAgg) : Prop := lexLeChars a.1.data b.1.data = true

instance : DecidableRel keyLE := fun a b =>
  inferInstanceAs (Decidable (lexLeChars a.1.data b.1.data = true))

instance : IsTotal (String × DayAgg) keyLE :=
  ⟨fun p q => by
    have htot : ∀ (a b : List Char), lexLeChars a b || lexLeChars b a := by
      intro a
      induction a with
      | nil => intro b; simp [lexLeChars]
      | cons x xs ih =>
        intro b
        cases b with
        | nil => simp [lexLeChars]
        | cons y ys =>
          by_cases hxy : x < y
          · simp [lexLeChars, hxy]
          · by_cases hyx : y < x
            · simp [lexLeChars, hxy, hyx]
            · simpa [lexLeChars, hxy, hyx] using ih ys
    rcases Bool.or_eq_true_iff.mp (htot p.1.data q.1.data) with h | h
    · exact Or.inl h
    · exact Or.inr h⟩

instance : IsTrans (String × DayAgg) keyLE :=
  ⟨fun p q r hpq hqr => by
    have htr : ∀ (a b c : List Char), lexLeChars a b → lexLeChars b c → lexLeChars a c := by
      intro a
      induction a with
      | nil => intro b c h1 h2; simp [lexLeChars]
      | cons x xs ih =>
        intro b c h1 h2
        cases b with
        | nil => simp [lexLeChars] at h1
        | cons y ys =>
          cases c with
          | nil => simp [lexLeChars] at h2
          | cons z zs =>
            by_cases hxy : x < y
            · by_cases hyz : y < z
              · simp [lexLeChars, lt_trans hxy hyz]
              · by_cases hzy : z < y
                · simp [lexLeChars, hyz, hzy] at h2
                · have hyz' : y = z := le_antisymm (not_lt.mp hzy) (not_lt.mp hyz)
                  simp [lexLeChars, hyz' ▸ hxy]
            · by_cases hyx : y < x
              · simp [lexLeChars, hxy, hyx] at h1
              · have hxy' : x = y := le_antisymm (not_lt.mp hyx) (not_lt.mp hxy)
                subst hxy'
                by_cases hxz : x < z
                · simp [lexLeChars, hxz]
                · by_cases hzx : z < x
                  · simp [lexLeChars, hxz, hzx] at h2
                  · simp [lexLeChars, hxy, hxz, hzx] at h1 h2 ⊢
                    exact ih ys zs h1 h2
    exact htr p.1.data q.1.data r.1.data hpq hqr⟩

/-- the `daily` aggregation of `parseWindyResponse` (src/app.js:439-460).
The timezone conversion `new Date(ts[i]).toLocaleDateString('en-CA',
America/Los_Angeles)` is abstracted into the `dateKey` parameter (its
value table lives in the host's tzdata); everything downstream of it is
transliterated: group all timesteps by key, convert units, sort the
entries by key ascending, keep at most 7, and emit
`label`/`high`/`low`/`precip` per day. -/
def parseWindyDaily (dateKey : Int → String) (ts : List Int)
    (tempK precM : List Rat) : List DailyEntry :=
  let dayMap := (List.range ts.length).foldl
    (fun m i => pushDay m (dateKey (ts.getD i 0))
        (kToF (tempK.getD i (mkRat 27315 100)))
        (mToIn (precM.getD i 0)))
    []
  ((List.insertionSort keyLE dayMap).take 7).map
    (fun e => ⟨e.2.label, listMax e.2.temps, listMin e.2.temps,
               e.2.precips.foldl jsAdd 0⟩)

/-- specification-side grouping: the timestep indices below `j` whose date
key is `k`. -/
def groupIdxUpTo (dateKey : Int → String) (ts : List Int) (j : Nat) (k : String) :
    List Nat :=
  (List.range j).filter (fun i => dateKey (ts.getD i 0) == k)

/-- specification-side per-day converted temperatures, in timestep
order. -/
def groupTemps (dateKey : Int → String) (ts : List Int) (tempK : List Rat)
    (k : String) : List Rat :=
  (groupIdxUpTo dateKey ts ts.length k).map (fun i => kToF (tempK.getD i (mkRat 27315 100)))

/-- specification-side per-day converted precipitations, in timestep
order. -/
def groupPrecips (dateKey : Int → String) (ts : List Int) (precM : List Rat)
    (k : String) : List Rat :=
  (groupIdxUpTo dateKey ts ts.length k).map (fun i => mToIn (precM.getD i 0))

/-- lookup of a day bucket by key in the association-list model of the JS
`Map`. -/
def lookupDay (m : List (String × DayAgg)) (k : String) : Option DayAgg :=
  (m.find? (fun e => e.1 == k)).map Prod.snd

/-- the `dayMap` built from the first `j` timesteps. -/
def buildDayMap (dateKey : Int → String) (ts : List Int) (tempK precM : List Rat)
    (j : Nat) : List (String × DayAgg) :=
  (List.range j).foldl
    (fun m i => pushDay m (dateKey (ts.getD i 0))
        (kToF (tempK.getD i (mkRat 27315 100)))
        (mToIn (precM.getD i 0)))
    []

-- =====================================================================
-- Nearest-time temperature alignment (src/app.js:673-683)
-- =====================================================================

/-- the ascending-time ordering of the `(a, b) => a.time - b.time`
comparator used on `waterTemp` in `createHydrograph`. -/
def timeAsc (a b : Sample) : Prop := a.time ≤ b.time

instance : DecidableRel timeAsc := fun a b => Int.decLe a.time b.time

instance : IsTotal Sample timeAsc := ⟨fun a b => le_total a.time b.time⟩

instance : IsTrans Sample timeAsc := ⟨fun _ _ _ h1 h2 => le_trans h1 h2⟩

/-- the temperature-alignment step of `createHydrograph`
(src/app.js:675-682): sort the temperature series by time, then for each
downsampled discharge point take the `reduce`-selected nearest-in-time
temperature sample and accept it only under a 4-hour gap.  The source
guards this block with `waterTemp.length > 0`, so the empty branch never
arises there. -/
def alignTemp (ds waterTemp : List Sample) : List (Option Rat) :=
  match List.insertionSort timeAsc waterTemp with
  | [] => ds.map (fun _ => none)
  | h :: t =>
    ds.map (fun dp =>
      let nearest := t.foldl (fun best tv =>
        if |tv.time - dp.time| < |best.time - dp.time| then tv else best) h
      if |nearest.time - dp.time| < 4 * 3600000 then some nearest.value else none)

-- =====================================================================
-- Per-station reconciliation inside refresh (src/app.js:1136-1184)
-- =====================================================================

/-- outcome of one provider fetch: a parsed value, or a raised/timed-out
request (the `catch` paths of the station job). -/
inductive FetchOutcome (α : Type) where
  | ok  (val : α)
  | err
  deriving Repr, DecidableEq

/-- the per-station identifier configuration consumed by the station job
(the `usgsId`, `usbrId`, `nwrfcId`, `nwsLid` fields of `STATIONS`). -/
structure StationCfg where
  usgsId  : Option String
  usbrId  : Option String
  nwrfcId : Option String
  nwsLid  : Option String
  deriving Repr, DecidableEq

/-- the object stored into `state.stationData[station.id]`
(src/app.js:1178-1182): the accepted series set (or all-empty), the
forecast, and the providing source tag. -/
structure StationReading where
  discharge  : List Sample
  waterTemp  : List Sample
  gageHeight : List Sample
  forecast   : List Sample
  source     : Option String
  deriving Repr, DecidableEq

/-- one provider attempt of the station job (the shared
`if (station.xId) try { const d = await fetch...; if (d.discharge.length >
0) { result = d; source = name } } catch {}` pattern of src/app.js:1140-1156):
no identifier or a failed fetch or an empty discharge series yields no
acceptance. -/
def tryProvider (idOpt : Option String) (res : FetchOutcome SeriesSet)
    (name : String) : Option (SeriesSet × String) :=
  match idOpt, res with
  | some _, .ok d => if d.discharge.length > 0 then some (d, name) else none
  | _, _ => none

/-- the NWRFC water-temperature supplement step (src/app.js:1159-1166):
only when a result was accepted, the station has an `nwrfcId`, the
accepted water-temperature series is empty and the supplemental fetch
succeeds non-empty is the water-temperature series replaced. -/
def supplementTemp (r : Option (SeriesSet × String)) (nwrfcId : Option String)
    (nwrfc : FetchOutcome (List Sample)) : Option (SeriesSet × String) :=
  match r, nwrfcId, nwrfc with
  | some (d, src), some _, .ok tw =>
    if d.waterTemp.length = 0 ∧ tw.length > 0 then some ({ d with waterTemp := tw }, src)
    else some (d, src)
  | _, _, _ => r

/-- the independent NWS forecast fetch (src/app.js:1169-1176): `[]` when
the station has no `nwsLid` or the fetch fails. -/
def forecastOf (nwsLid : Option String) (nws : FetchOutcome (List Sample)) :
    List Sample :=
  match nwsLid, nws with
  | some _, .ok f => f
  | _, _ => []

/-- one station job of `refresh` (src/app.js:1136-1184) as a function of
the four provider outcomes: try USGS when configured and accept only a
non-empty discharge, else try USBR the same way, then supplement an empty
water-temperature series from NWRFC, fetch the NWS forecast
independently, and store the result with its source tag. -/
def runStationJob (st : StationCfg) (usgs usbr : FetchOutcome SeriesSet)
    (nwrfc : FetchOutcome (List Sample)) (nws : FetchOutcome (List Sample)) :
    StationReading :=
  let r1 := tryProvider st.usgsId usgs "USGS"
  let r2 :=
    match r1 with
    | some _ => r1
    | none => tryProvider st.usbrId usbr "USBR"
  let r3 := supplementTemp r2 st.nwrfcId nwrfc
  let forecast := forecastOf st.nwsLid nws
  match r3 with
  | some (d, src) => ⟨d.discharge, d.waterTemp, d.gageHeight, forecast, some src⟩
  | none => ⟨[], [], [], forecast, none⟩

-- =====================================================================
-- The refresh cycle's in-flight flag (src/app.js:1124-1222)
-- =====================================================================

/-- the application state as seen by the `refresh` guard: the
`state.isRefreshing` flag plus everything else (station data, charts, DOM)
abstracted into `rest`. -/
structure RefreshState (σ : Type) where
  isRefreshing : Bool
  rest         : σ

/-- `refresh` (src/app.js:1124-1222) as a state transition.  The body of
the cycle (spinner, status, the parallel jobs, the aggregation) is the
abstract fallible transformer `body` covering lines 1128-1213; `onError`
is the `catch` handler (`setStatus('error', ...)`, line 1214-1216); the
`finally` block clears the flag on both paths.  A call that finds the
flag set returns at line 1125 without touching anything. -/
def refresh {σ ε : Type} (body : σ → Except ε σ) (onError : σ → σ)
    (s : RefreshState σ) : RefreshState σ :=
  if s.isRefreshing then s
  else
    let s1 : RefreshState σ := { s with isRefreshing := true }
    let s2 : RefreshState σ :=
      match body s1.rest with
      | .ok r => { s1 with rest := r }
      | .error _ => { s1 with rest := onError s1.rest }
    { s2 with isRefreshing := false }

theorem jsAdd_eq (a b : Rat) : jsAdd a b = a + b := (Rat.add_def' a b).symm

theorem jsSub_eq (a b : Rat) : jsSub a b = a - b := (Rat.sub_def' a b).symm

theorem jsMul_eq (a b : Rat) : jsMul a b = a * b := (Rat.mul_eq_mkRat a b).symm

theorem jsDiv_eq (a b : Rat) : jsDiv a b = a / b := (Rat.div_def' a b).symm

-- =====================================================================
-- Claim theorems
-- =====================================================================

/-- C9: the USBR CSV parser defined in src/app.js and the one defined in
src/unnamed/part_000 are extensionally equal: on every input text and
station code they return identical discharge, waterTemp and gageHeight
series. -/
theorem parseUSBRCSV_extensional_eq (text stationLower : String) :
    parseUSBRCSV text stationLower = Part000.parseUSBRCSV text stationLower :=
  rfl

/-- C8: a `refresh` call that finds the in-flight flag set is a no-op
leaving the state unchanged; otherwise the cycle runs (on the flag-set
state) and the flag is cleared again on every exit path, both when the
body succeeds and when it throws into the `catch` handler. -/
theorem refresh_flag_spec {σ ε : Type} (body : σ → Except ε σ) (onError : σ → σ)
    (s : RefreshState σ) :
    (s.isRefreshing = true → refresh body onError s = s) ∧
    (s.isRefreshing = false →
      (∀ r, body s.rest = Except.ok r →
        refresh body onError s = ⟨false, r⟩) ∧
      (∀ e, body s.rest = Except.error e →
        refresh body onError s = ⟨false, onError s.rest⟩)) := by
  refine ⟨fun h => by simp [refresh, h], fun h => ⟨fun r hr => ?_, fun e he => ?_⟩⟩
  · simp [refresh, h, hr]
  · simp [refresh, h, he]

/-- witness for C8 at a concrete state: a set flag makes the call a no-op,
and a cycle whose body throws still ends with the flag cleared. -/
theorem refresh_flag_witness :
    refresh (fun n : Nat => Except.ok (ε := Unit) (n + 1)) id
        (⟨true, 0⟩ : RefreshState Nat) = ⟨true, 0⟩ ∧
    refresh (fun _ : Nat => Except.error (α := Nat) ()) id
        (⟨false, 0⟩ : RefreshState Nat) = ⟨false, 0⟩ :=
  ⟨(refresh_flag_spec _ _ _).1 rfl,
   ((refresh_flag_spec (fun _ : Nat => Except.error (α := Nat) ()) id
      (⟨false, 0⟩ : RefreshState Nat)).2 rfl).2 () rfl⟩

/-- an accepted provider result carries the provider's name and a
non-empty discharge series. -/
theorem tryProvider_some {idOpt : Option String} {res : FetchOutcome SeriesSet}
    {name : String} {d : SeriesSet} {s : String}
    (h : tryProvider idOpt res name = some (d, s)) :
    s = name ∧ d.discharge ≠ [] := by
  rcases idOpt with _ | u
  · simp [tryProvider] at h
  · rcases res with d0 | _
    · simp only [tryProvider] at h
      split at h
      · rename_i hlen
        simp only [Option.some.injEq, Prod.mk.injEq] at h
        obtain ⟨rfl, rfl⟩ := h
        exact ⟨rfl, List.length_pos.mp hlen⟩
      · exact absurd h (by simp)
    · simp [tryProvider] at h

/-- the supplement step only ever replaces the water-temperature series:
it is the identity on the option shape, the source tag and the discharge
series. -/
theorem supplementTemp_shape (r : Option (SeriesSet × String))
    (nwrfcId : Option String) (nwrfc : FetchOutcome (List Sample)) :
    (r = none ∧ supplementTemp r nwrfcId nwrfc = none) ∨
    (∃ d src d', r = some (d, src) ∧ supplementTemp r nwrfcId nwrfc = some (d', src) ∧
      d'.discharge = d.discharge) := by
  rcases r with _ | ⟨d, src⟩
  · left
    constructor
    · rfl
    · rcases nwrfcId with _ | w <;> rcases nwrfc with tw | _ <;> rfl
  · right
    rcases nwrfcId with _ | w <;> rcases nwrfc with tw | _
    · exact ⟨d, src, d, rfl, rfl, rfl⟩
    · exact ⟨d, src, d, rfl, rfl, rfl⟩
    · by_cases hc : d.waterTemp.length = 0 ∧ tw.length > 0
      · refine ⟨d, src, { d with waterTemp := tw }, rfl, ?_, rfl⟩
        simp only [supplementTemp, if_pos hc]
      · refine ⟨d, src, d, rfl, ?_, rfl⟩
        simp only [supplementTemp, if_neg hc]
    · exact ⟨d, src, d, rfl, rfl, rfl⟩

/-- a provider attempt with no identifier, a failed fetch, or an empty
discharge series accepts nothing. -/
theorem tryProvider_none {idOpt : Option String} {res : FetchOutcome SeriesSet}
    {name : String}
    (h : idOpt = none ∨ res = FetchOutcome.err ∨
      ∃ d, res = FetchOutcome.ok d ∧ d.discharge = []) :
    tryProvider idOpt res name = none := by
  rcases h with h | h | ⟨d, rfl, hde⟩
  · simp [h, tryProvider]
  · subst h; rcases idOpt with _ | u <;> simp [tryProvider]
  · rcases idOpt with _ | u <;> simp [tryProvider, hde]

/-- a configured provider whose fetch succeeds with non-empty discharge is
accepted as-is. -/
theorem tryProvider_accepts {u : String} {d : SeriesSet} (name : String)
    (hne : d.discharge ≠ []) :
    tryProvider (some u) (FetchOutcome.ok d) name = some (d, name) := by
  simp [tryProvider, List.length_pos.mpr hne]

/-- C3: when the primary (USGS) step cannot be accepted — no identifier,
a failed fetch, or an empty discharge series — and the station has a USBR
identifier whose fetch succeeds with non-empty discharge, the stored
reading carries source "USBR" and a non-empty discharge series; moreover
no reading ever carries a source tag together with an empty discharge
series, i.e. an empty-discharge provider result is never accepted. -/
theorem runStationJob_fallback :
    (∀ st usgs usbr nwrfc nws,
      (st.usgsId = none ∨ usgs = FetchOutcome.err ∨
        (∃ d, usgs = FetchOutcome.ok d ∧ d.discharge = [])) →
      st.usbrId ≠ none →
      ∀ d2, usbr = FetchOutcome.ok d2 → d2.discharge ≠ [] →
        (runStationJob st usgs usbr nwrfc nws).source = some "USBR" ∧
        (runStationJob st usgs usbr nwrfc nws).discharge ≠ []) ∧
    (∀ st usgs usbr nwrfc nws src,
      (runStationJob st usgs usbr nwrfc nws).source = some src →
      (runStationJob st usgs usbr nwrfc nws).discharge ≠ []) := by
  constructor
  · rintro st usgs usbr nwrfc nws hfail husbr d2 rfl hne
    obtain ⟨u, hu⟩ := Option.ne_none_iff_exists'.mp husbr
    have h1 : tryProvider st.usgsId usgs "USGS" = none := tryProvider_none hfail
    simp only [runStationJob, h1]
    rw [hu, tryProvider_accepts "USBR" hne]
    rcases supplementTemp_shape (some (d2, "USBR")) st.nwrfcId nwrfc with
      ⟨hr, _⟩ | ⟨d, s, d', hr, hsupp, hdis⟩
    · exact absurd hr (by simp)
    · simp only [Option.some.injEq, Prod.mk.injEq] at hr
      obtain ⟨rfl, rfl⟩ := hr
      rw [hsupp]
      exact ⟨rfl, by simpa [hdis] using hne⟩
  · intro st usgs usbr nwrfc nws src hsrc
    simp only [runStationJob] at hsrc ⊢
    rcases supplementTemp_shape (match tryProvider st.usgsId usgs "USGS" with
        | some _ => tryProvider st.usgsId usgs "USGS"
        | none => tryProvider st.usbrId usbr "USBR") st.nwrfcId nwrfc with
      ⟨hr2, h3⟩ | ⟨d, s, d', hr2, h3, hdis⟩
    · rw [h3] at hsrc
      simp at hsrc
    · have hdne : d.discharge ≠ [] := by
        rcases h : tryProvider st.usgsId usgs "USGS" with _ | p
        · rw [h] at hr2
          simp only [] at hr2
          exact (tryProvider_some hr2).2
        · rw [h] at hr2
          simp only [Option.some.injEq] at hr2
          subst hr2
          exact (tryProvider_some h).2
      rw [h3]
      simpa [hdis] using hdne

/-- witness for C3: a station with no USGS identifier whose USBR fetch
returns one discharge point stores source "USBR". -/
theorem runStationJob_fallback_witness :
    (runStationJob ⟨none, some "EASW", none, none⟩ FetchOutcome.err
      (FetchOutcome.ok ⟨[⟨0, 1⟩], [], []⟩) FetchOutcome.err FetchOutcome.err).source
      = some "USBR" :=
  (runStationJob_fallback.1 ⟨none, some "EASW", none, none⟩ FetchOutcome.err
    (FetchOutcome.ok ⟨[⟨0, 1⟩], [], []⟩) FetchOutcome.err FetchOutcome.err
    (Or.inl rfl) (by simp) ⟨[⟨0, 1⟩], [], []⟩ rfl (by simp)).1

/-- fold invariants of the current-index loop over an enumerated suffix:
the fold returns the seed or a hit index, every hit index bounds the
result from below, and with no hit at all the seed survives. -/
theorem currentIndexAux_spec (now : Int) (l : List Int) :
    ∀ (k cur : Nat),
      ((List.enumFrom k l).foldl (fun c p => if p.2 ≤ now then p.1 else c) cur = cur ∨
        ∃ j, j < l.length ∧
          (List.enumFrom k l).foldl (fun c p => if p.2 ≤ now then p.1 else c) cur = k + j ∧
          l.getD j 0 ≤ now) ∧
      (∀ j, j < l.length → l.getD j 0 ≤ now →
        k + j ≤ (List.enumFrom k l).foldl (fun c p => if p.2 ≤ now then p.1 else c) cur) ∧
      ((∀ j, j < l.length → ¬ l.getD j 0 ≤ now) →
        (List.enumFrom k l).foldl (fun c p => if p.2 ≤ now then p.1 else c) cur = cur) := by
  induction l with
  | nil => intro k cur; exact ⟨Or.inl rfl, fun j h => absurd h (by simp), fun _ => rfl⟩
  | cons x xs ih =>
    intro k cur
    have hstep : (List.enumFrom k (x :: xs)).foldl
        (fun c p => if p.2 ≤ now then p.1 else c) cur =
        (List.enumFrom (k + 1) xs).foldl (fun c p => if p.2 ≤ now then p.1 else c)
          (if x ≤ now then k else cur) := by
      simp [List.enumFrom, List.foldl_cons]
    obtain ⟨ih1, ih2, ih3⟩ := ih (k + 1) (if x ≤ now then k else cur)
    refine ⟨?_, ?_, ?_⟩
    · rcases ih1 with h | ⟨j, hj, hr, hsat⟩
      · by_cases hx : x ≤ now
        · right
          refine ⟨0, by simp, ?_, by simpa using hx⟩
          rw [hstep, h, if_pos hx]
          omega
        · left
          rw [hstep, h, if_neg hx]
      · right
        refine ⟨j + 1, by simpa using hj, ?_, by simpa using hsat⟩
        rw [hstep, hr]
        omega
    · intro j h hsat
      match j with
      | 0 =>
        have hx : x ≤ now := by simpa using hsat
        rw [hstep, if_pos hx]
        rcases ih1 with h1 | ⟨j', hj', hr, _⟩
        · rw [if_pos hx] at h1
          omega
        · rw [if_pos hx] at hr
          rw [hr]
          omega
      | j' + 1 =>
        have := ih2 j' (by simpa using h) (by simpa using hsat)
        rw [hstep]
        omega
    · intro hnone
      have hx : ¬ x ≤ now := by simpa using hnone 0 (by simp)
      rw [hstep, if_neg hx]
      have := ih3 (fun j hj hs => hnone (j + 1) (by simpa using hj) (by simpa using hs))
      rw [if_neg hx] at this
      exact this

/-- C4: the current snapshot of `parseWindyResponse` is taken at the
greatest index whose timestamp is at or before `now`; when no timestep is
at or before `now`, the index falls back to 0, the earliest future
timestep. -/
theorem currentIndex_spec (ts : List Int) (now : Int) :
    ((∀ i, i < ts.length → ¬ ts.getD i 0 ≤ now) → currentIndex ts now = 0) ∧
    (∀ i, i < ts.length → ts.getD i 0 ≤ now →
      currentIndex ts now < ts.length ∧ ts.getD (currentIndex ts now) 0 ≤ now ∧
      i ≤ currentIndex ts now) := by
  obtain ⟨h1, h2, h3⟩ := currentIndexAux_spec now ts 0 0
  have henum : currentIndex ts now =
      (List.enumFrom 0 ts).foldl (fun c p => if p.2 ≤ now then p.1 else c) 0 := by
    simp [currentIndex, List.enum]
  constructor
  · intro hnone
    rw [henum]
    exact h3 hnone
  · intro i hi hsat
    have hlow : i ≤ currentIndex ts now := by
      rw [henum]
      simpa using h2 i hi hsat
    rcases h1 with hz | ⟨j, hj, hr, hjsat⟩
    · have hz' : currentIndex ts now = 0 := by rw [henum, hz]
      have hi0 : i = 0 := by omega
      subst hi0
      rw [hz']
      exact ⟨by omega, hsat, by omega⟩
    · have hr' : currentIndex ts now = j := by rw [henum, hr]; omega
      rw [hr']
      exact ⟨hj, hjsat, by omega⟩

/-- witness for C4 at concrete input: with timesteps 10, 20, 30, 40 and
now 25, the chosen index 1 is at or before now and no later in-range index
is. -/
theorem currentIndex_witness :
    currentIndex [10, 20, 30, 40] 25 < ([10, 20, 30, 40] : List Int).length ∧
    ([10, 20, 30, 40] : List Int).getD (currentIndex [10, 20, 30, 40] 25) 0 ≤ 25 ∧
    1 ≤ currentIndex [10, 20, 30, 40] 25 :=
  (currentIndex_spec [10, 20, 30, 40] 25).2 1 (by decide) (by decide)

set_option maxRecDepth 4000 in
/-- filtering an enumerated suffix on the index and keeping the payloads
equals index-filtering the positions directly. -/
theorem enumFrom_filter_map_snd {α : Type} (f : Nat → Bool) :
    ∀ (l : List α) (k : Nat),
      ((List.enumFrom k l).filter (fun p => f p.1)).map Prod.snd
        = (List.range l.length).filterMap (fun j => if f (k + j) then l[j]? else none) := by
  intro l
  induction l with
  | nil => intro k; simp
  | cons a t ih =>
    intro k
    have hcomp : ((fun j => if f (k + j) then (a :: t)[j]? else none) ∘ Nat.succ)
        = fun j => if f (k + 1 + j) then t[j]? else none := by
      funext j
      show (if f (k + (j + 1)) then (a :: t)[j + 1]? else none) = _
      rw [List.getElem?_cons_succ]
      have h : k + (j + 1) = k + 1 + j := by omega
      rw [h]
    rw [List.length_cons, List.range_succ_eq_map, List.filterMap_cons, List.filterMap_map,
      hcomp, ← ih (k + 1)]
    by_cases hf : f k
    · simp only [List.enumFrom, List.filter_cons, hf, if_true, List.map_cons, Nat.add_zero,
        List.getElem?_cons_zero]
    · simp only [List.enumFrom, List.filter_cons, hf, if_false, Nat.add_zero,
        List.getElem?_cons_zero, Bool.false_eq_true]

/-- on in-range positions the index-filterMap has the same length as the
plain index filter. -/
theorem filterMap_if_getElem_length {α : Type} (l : List α) (f : Nat → Bool) :
    ∀ js : List Nat, (∀ j ∈ js, j < l.length) →
      (js.filterMap (fun j => if f j then l[j]? else none)).length = (js.filter f).length := by
  intro js
  induction js with
  | nil => intro _; rfl
  | cons j t ih =>
    intro hmem
    have hj : j < l.length := hmem j (by simp)
    have ht := ih (fun x hx => hmem x (by simp [hx]))
    by_cases hf : f j
    · have : l[j]? = some (l.get ⟨j, hj⟩) := by
        simp [List.getElem?_eq_getElem hj]
      simp [List.filterMap_cons, List.filter_cons, hf, this, ht]
    · simp [List.filterMap_cons, List.filter_cons, hf, ht]

/-- the count of multiples of `s` below `n` is the ceiling of `n / s`. -/
theorem count_multiples {s : Nat} (hs : 1 ≤ s) :
    ∀ n, ((List.range n).filter (fun j => j % s == 0)).length = (n + s - 1) / s := by
  intro n
  induction n with
  | zero => simp [Nat.div_eq_of_lt (by omega : s - 1 < s)]
  | succ n ih =>
    rw [List.range_succ, List.filter_append, List.length_append, ih]
    have hform : n + 1 + s - 1 = (n + s - 1) + 1 := by omega
    have hns : (n + s - 1) + 1 = n + s := by omega
    rw [hform, Nat.succ_div, hns]
    by_cases h : n % s = 0
    · have h1 : s ∣ n := Nat.dvd_of_mod_eq_zero h
      simp [h, Nat.dvd_add_self_right.mpr h1]
    · have h1 : ¬ s ∣ n := fun hd => h (Nat.mod_eq_zero_of_dvd hd)
      simp [h, Nat.dvd_add_self_right, h1]

/-- ceiling-dividing `n` by the ceiling of `n / m` yields at most `m`. -/
theorem ceil_div_ceil_le {n m : Nat} (hm : 1 ≤ m) (hn : m < n) :
    (n + (n + m - 1) / m - 1) / ((n + m - 1) / m) ≤ m := by
  have hs1 : 1 ≤ (n + m - 1) / m := by
    rw [Nat.one_le_div_iff (by omega)]
    omega
  obtain ⟨P, hP⟩ : ∃ P, P = m * ((n + m - 1) / m) := ⟨_, rfl⟩
  have hmod := Nat.div_add_mod (n + m - 1) m
  have hmlt : (n + m - 1) % m < m := Nat.mod_lt _ (by omega)
  have hnP : n ≤ P := by omega
  rw [Nat.lt_succ_iff.symm, Nat.succ_eq_add_one]
  rw [Nat.div_lt_iff_lt_mul (by omega : 0 < (n + m - 1) / m)]
  have hexp : (m + 1) * ((n + m - 1) / m) = P + (n + m - 1) / m := by
    rw [hP]
    ring
  omega

/-- C1 (amended): `downsample` always returns a subsequence of its input;
it returns the input unchanged when it already fits; for a positive
maximum `m` the result has at most `m` elements; and in the thinning case
it keeps exactly the elements whose index is divisible by
`ceil(length / m)`.  (For `m = 0` and a non-empty input the length bound
fails: JS keeps index 0, giving one element.) -/
theorem downsample_spec {α : Type} (arr : List α) (m : Nat) :
    (downsample arr m).Sublist arr ∧
    (arr.length ≤ m → downsample arr m = arr) ∧
    (1 ≤ m → (downsample arr m).length ≤ m) ∧
    (1 ≤ m → m < arr.length →
      downsample arr m = (List.range arr.length).filterMap
        (fun j => if j % ((arr.length + m - 1) / m) == 0 then arr[j]? else none)) := by
  have hchar : m < arr.length →
      downsample arr m = (List.range arr.length).filterMap
        (fun j => if j % ((arr.length + m - 1) / m) == 0 then arr[j]? else none) := by
    intro hlt
    rw [downsample, if_neg (by omega)]
    have := enumFrom_filter_map_snd
      (fun j => j % ((arr.length + m - 1) / m) == 0) arr 0
    rw [show arr.enum = List.enumFrom 0 arr from rfl, this]
    simp only [Nat.zero_add]
  refine ⟨?_, ?_, ?_, fun _ h => hchar h⟩
  · by_cases h : arr.length ≤ m
    · rw [downsample, if_pos h]
    · rw [downsample, if_neg h]
      have hsub : ((arr.enum.filter
          (fun p => p.1 % ((arr.length + m - 1) / m) == 0)).map Prod.snd).Sublist
          (arr.enum.map Prod.snd) :=
        List.Sublist.map _ (List.filter_sublist _)
      rwa [List.enum_map_snd] at hsub
  · intro h
    rw [downsample, if_pos h]
  · intro hm
    by_cases h : arr.length ≤ m
    · rw [downsample, if_pos h]
      exact h
    · have hlt : m < arr.length := by omega
      rw [hchar hlt]
      have hs1 : 1 ≤ (arr.length + m - 1) / m := by
        rw [Nat.one_le_div_iff (by omega)]
        omega
      rw [filterMap_if_getElem_length arr _ (List.range arr.length)
        (fun j hj => List.mem_range.mp hj)]
      rw [count_multiples hs1 arr.length]
      exact ceil_div_ceil_le hm hlt

/-- counterexample for C1 as stated: with maximum count 0 and a singleton
input (which does not fit), JS keeps index 0 and returns one element, so
the result's length exceeds the maximum. -/
theorem downsample_counterexample :
    ¬ ((downsample [(5 : Nat)] 0).length ≤ 0) := by decide

/-- witness for C1 at concrete inputs: thinning 7 points to at most 3, and
returning a fitting series unchanged. -/
theorem downsample_witness :
    (downsample [1, 2, 3, 4, 5, 6, 7] 3).length ≤ 3 ∧
    downsample [1, 2, 3] 5 = [1, 2, 3] :=
  ⟨(downsample_spec [1, 2, 3, 4, 5, 6, 7] 3).2.2.1 (by decide),
   (downsample_spec [1, 2, 3] 5).2.1 (by decide)⟩

/-- fold invariants of the nearest-sample `reduce` in `createHydrograph`:
the fold returns the seed or a list element, never increases the time gap
of the seed, and bounds every element's gap from below. -/
theorem foldl_nearest_spec (c : Int) :
    ∀ (t : List Sample) (h0 : Sample),
      ((t.foldl (fun best tv => if |tv.time - c| < |best.time - c| then tv else best) h0) = h0 ∨
        (t.foldl (fun best tv => if |tv.time - c| < |best.time - c| then tv else best) h0) ∈ t) ∧
      |(t.foldl (fun best tv => if |tv.time - c| < |best.time - c| then tv else best) h0).time - c|
        ≤ |h0.time - c| ∧
      (∀ tv ∈ t,
        |(t.foldl (fun best tv => if |tv.time - c| < |best.time - c| then tv else best) h0).time - c|
          ≤ |tv.time - c|) := by
  intro t
  induction t with
  | nil => exact fun h0 => ⟨Or.inl rfl, le_refl _, fun tv htv => absurd htv (by simp)⟩
  | cons x xs ih =>
    intro h0
    have hstep : ((x :: xs).foldl
        (fun best tv => if |tv.time - c| < |best.time - c| then tv else best) h0) =
        (xs.foldl (fun best tv => if |tv.time - c| < |best.time - c| then tv else best)
          (if |x.time - c| < |h0.time - c| then x else h0)) := by
      rw [List.foldl_cons]
    obtain ⟨ih1, ih2, ih3⟩ := ih (if |x.time - c| < |h0.time - c| then x else h0)
    rw [hstep]
    by_cases hx : |x.time - c| < |h0.time - c|
    · rw [if_pos hx] at ih1 ih2 ih3 ⊢
      refine ⟨?_, le_trans ih2 (le_of_lt hx), ?_⟩
      · rcases ih1 with h | h
        · exact Or.inr (by simp [h])
        · exact Or.inr (by simp [h])
      · intro tv htv
        rcases List.mem_cons.mp htv with rfl | htv'
        · exact ih2
        · exact ih3 tv htv'
    · rw [if_neg hx] at ih1 ih2 ih3 ⊢
      refine ⟨?_, ih2, ?_⟩
      · rcases ih1 with h | h
        · exact Or.inl h
        · exact Or.inr (by simp [h])
      · intro tv htv
        rcases List.mem_cons.mp htv with rfl | htv'
        · exact le_trans ih2 (not_lt.mp hx)
        · exact ih3 tv htv'

/-- C5: for a non-empty temperature series, each aligned slot is computed
from a temperature sample of minimum absolute time distance to the
discharge point, and it carries that sample's value exactly when the gap
is strictly under 4 hours (14400000 ms), `none` otherwise. -/
theorem alignTemp_spec (ds temps : List Sample) (hne : temps ≠ []) :
    (alignTemp ds temps).length = ds.length ∧
    ∀ i, i < ds.length →
      ∃ nearest ∈ temps,
        (∀ tv ∈ temps,
          |nearest.time - (ds.getD i ⟨0, 0⟩).time| ≤ |tv.time - (ds.getD i ⟨0, 0⟩).time|) ∧
        (alignTemp ds temps)[i]? =
          some (if |nearest.time - (ds.getD i ⟨0, 0⟩).time| < 4 * 3600000
            then some nearest.value else none) := by
  have hperm := List.perm_insertionSort timeAsc temps
  rcases hsort : List.insertionSort timeAsc temps with _ | ⟨h, t⟩
  · rw [hsort] at hperm
    exact absurd (hperm.symm.eq_nil) hne
  · have hmem_iff : ∀ x, x ∈ h :: t ↔ x ∈ temps := by
      intro x
      rw [← hsort]
      exact (List.perm_insertionSort timeAsc temps).mem_iff
    constructor
    · rw [alignTemp, hsort, List.length_map]
    · intro i hi
      set dp := ds.getD i ⟨0, 0⟩ with hdp
      set nearest := t.foldl
        (fun best tv => if |tv.time - dp.time| < |best.time - dp.time| then tv else best) h
        with hnear
      obtain ⟨f1, f2, f3⟩ := foldl_nearest_spec dp.time t h
      refine ⟨nearest, ?_, ?_, ?_⟩
      · apply (hmem_iff nearest).mp
        rcases f1 with hh | hh
        · rw [hnear, hh]; simp
        · rw [hnear]; simp [hh]
      · intro tv htv
        rcases List.mem_cons.mp ((hmem_iff tv).mpr htv) with rfl | htv'
        · exact f2
        · exact f3 tv htv'
      · rw [alignTemp, hsort, List.getElem?_map]
        have hds : ds[i]? = some dp := by
          rw [List.getElem?_eq_getElem hi, hdp, List.getD_eq_getElem ds ⟨0, 0⟩ hi]
        rw [hds]
        rfl

/-- witness for C5 at concrete inputs: a temperature sample 5 hours from
the discharge point aligns to null, one 3 hours away aligns to its value,
and the aligned list is as long as the discharge list. -/
theorem alignTemp_witness :
    (alignTemp [⟨0, 1⟩] [⟨18000000, 50⟩] = [none] ∧
      alignTemp [⟨0, 1⟩] [⟨10800000, 60⟩] = [some 60]) ∧
    (alignTemp [⟨0, 1⟩] [⟨18000000, 50⟩]).length = 1 :=
  ⟨⟨by decide, by decide⟩, (alignTemp_spec [⟨0, 1⟩] [⟨18000000, 50⟩] (by decide)).1⟩

/-- counterexample for C2 as stated: samples at t = 0 h (value 100) and
t = 25 h (value 200), judged at wall-clock now = 60 h.  The claim's
reference ("most recent sample at or before now - 24h") is the latest
sample itself, relative change 0, so the claim predicts "stable"; the
code anchors the cutoff at the latest sample's time and returns
"rising". -/
theorem getTrend_counterexample :
    getTrend [⟨0, 100⟩, ⟨90000000, 200⟩] 24 = "rising" ∧
    getTrendClaimC2 216000000 [⟨0, 100⟩, ⟨90000000, 200⟩] = "stable" :=
  ⟨by decide, by decide⟩

/-- `pastSample` is empty exactly when no sample lies at or before the
cutoff. -/
theorem pastSample_none_iff (values : List Sample) (cutoff : Int) :
    pastSample values cutoff = none ↔ ∀ v ∈ values, ¬ v.time ≤ cutoff := by
  rw [pastSample]
  constructor
  · intro h v hv hle
    have hnil : List.insertionSort timeDesc (values.filter (fun v => v.time ≤ cutoff)) = [] :=
      List.head?_eq_none_iff.mp h
    have hperm := List.perm_insertionSort timeDesc (values.filter (fun v => v.time ≤ cutoff))
    rw [hnil] at hperm
    have hfil : values.filter (fun v => v.time ≤ cutoff) = [] := hperm.symm.eq_nil
    have hv' : v ∈ values.filter (fun v => v.time ≤ cutoff) :=
      List.mem_filter.mpr ⟨hv, by simpa using hle⟩
    rw [hfil] at hv'
    exact absurd hv' (by simp)
  · intro hall
    have hfil : values.filter (fun v => v.time ≤ cutoff) = [] := by
      rw [List.filter_eq_nil_iff]
      intro v hv
      simpa using hall v hv
    rw [hfil]
    rfl

/-- a produced `pastSample` is a sample of the list at or before the
cutoff, and no sample at or before the cutoff is more recent. -/
theorem pastSample_some {values : List Sample} {cutoff : Int} {past : Sample}
    (h : pastSample values cutoff = some past) :
    past ∈ values ∧ past.time ≤ cutoff ∧
    ∀ v ∈ values, v.time ≤ cutoff → v.time ≤ past.time := by
  rw [pastSample] at h
  rcases hsort : List.insertionSort timeDesc (values.filter (fun v => v.time ≤ cutoff)) with
    _ | ⟨hd, tl⟩
  · rw [hsort] at h
    simp at h
  · rw [hsort] at h
    have hhd : hd = past := by simpa using h
    subst hhd
    have hperm := List.perm_insertionSort timeDesc (values.filter (fun v => v.time ≤ cutoff))
    rw [hsort] at hperm
    have hmem : hd ∈ values.filter (fun v => v.time ≤ cutoff) := hperm.mem_iff.mp (by simp)
    have hsorted := List.sorted_insertionSort timeDesc (values.filter (fun v => v.time ≤ cutoff))
    rw [hsort] at hsorted
    obtain ⟨hmem', hle⟩ := List.mem_filter.mp hmem
    refine ⟨hmem', by simpa using hle, ?_⟩
    intro v hv hvle
    have hvmem : v ∈ hd :: tl := hperm.mem_iff.mpr (List.mem_filter.mpr ⟨hv, by simpa using hvle⟩)
    rcases List.mem_cons.mp hvmem with rfl | htl
    · exact le_refl _
    · exact (List.sorted_cons.mp hsorted).1 v htl

/-- fold invariants of `getLatestValue`'s `reduce`: the fold returns the
seed or a list element, and its time bounds the seed's and every
element's time from above. -/
theorem foldl_latest_spec :
    ∀ (t : List Sample) (h0 : Sample),
      ((t.foldl (fun best v => if v.time > best.time then v else best) h0) = h0 ∨
        (t.foldl (fun best v => if v.time > best.time then v else best) h0) ∈ t) ∧
      h0.time ≤ (t.foldl (fun best v => if v.time > best.time then v else best) h0).time ∧
      (∀ v ∈ t, v.time ≤ (t.foldl (fun best v => if v.time > best.time then v else best) h0).time) := by
  intro t
  induction t with
  | nil => exact fun h0 => ⟨Or.inl rfl, le_refl _, fun v hv => absurd hv (by simp)⟩
  | cons x xs ih =>
    intro h0
    have hstep : ((x :: xs).foldl (fun best v => if v.time > best.time then v else best) h0) =
        (xs.foldl (fun best v => if v.time > best.time then v else best)
          (if x.time > h0.time then x else h0)) := by
      rw [List.foldl_cons]
    obtain ⟨ih1, ih2, ih3⟩ := ih (if x.time > h0.time then x else h0)
    rw [hstep]
    by_cases hx : x.time > h0.time
    · rw [if_pos hx] at ih1 ih2 ih3 ⊢
      refine ⟨?_, le_trans (le_of_lt hx) ih2, ?_⟩
      · rcases ih1 with h | h
        · exact Or.inr (by simp [h])
        · exact Or.inr (by simp [h])
      · intro v hv
        rcases List.mem_cons.mp hv with rfl | hv'
        · exact ih2
        · exact ih3 v hv'
    · rw [if_neg hx] at ih1 ih2 ih3 ⊢
      refine ⟨?_, ih2, ?_⟩
      · rcases ih1 with h | h
        · exact Or.inl h
        · exact Or.inr (by simp [h])
      · intro v hv
        rcases List.mem_cons.mp hv with rfl | hv'
        · exact le_trans (not_lt.mp hx) ih2
        · exact ih3 v hv'

/-- a produced `getLatestValue` is a sample of the list of maximal
time. -/
theorem getLatestValue_spec {values : List Sample} {latest : Sample}
    (h : getLatestValue values = some latest) :
    latest ∈ values ∧ ∀ v ∈ values, v.time ≤ latest.time := by
  rcases values with _ | ⟨h0, t⟩
  · simp [getLatestValue] at h
  · rw [getLatestValue] at h
    have hfold : (t.foldl (fun best v => if v.time > best.time then v else best) h0) = latest := by
      simpa using h
    obtain ⟨f1, f2, f3⟩ := foldl_latest_spec t h0
    rw [hfold] at f1 f2 f3
    constructor
    · rcases f1 with rfl | hmem
      · simp
      · simp [hmem]
    · intro v hv
      rcases List.mem_cons.mp hv with rfl | hv'
      · exact f2
      · exact f3 v hv'

/-- C2 (amended): `getTrend` at the default 24-hour window anchors the
reference cutoff at the latest sample's timestamp minus 24 hours (not at
wall-clock now): it returns "stable" on fewer than 2 samples, when no
sample lies at or before that cutoff, or when the reference value is 0;
otherwise it classifies the relative change against the exact threshold
1/10, "rising" above it, "falling" below its negation, else "stable".
The reference sample is the most recent sample at or before the cutoff
and the latest sample has maximal timestamp. -/
theorem getTrend_spec (values : List Sample) :
    (values.length < 2 → getTrend values 24 = "stable") ∧
    (∀ latest, getLatestValue values = some latest →
      (latest ∈ values ∧ ∀ v ∈ values, v.time ≤ latest.time) ∧
      (2 ≤ values.length →
        ((∀ v ∈ values, ¬ v.time ≤ latest.time - 86400000) → getTrend values 24 = "stable") ∧
        (∀ past, pastSample values (latest.time - 86400000) = some past →
          (past ∈ values ∧ past.time ≤ latest.time - 86400000 ∧
            ∀ v ∈ values, v.time ≤ latest.time - 86400000 → v.time ≤ past.time) ∧
          (past.value = 0 → getTrend values 24 = "stable") ∧
          (past.value ≠ 0 →
            ((latest.value - past.value) / past.value > 1/10 →
              getTrend values 24 = "rising") ∧
            ((latest.value - past.value) / past.value < -(1/10) →
              getTrend values 24 = "falling") ∧
            (-(1/10) ≤ (latest.value - past.value) / past.value →
              (latest.value - past.value) / past.value ≤ 1/10 →
              getTrend values 24 = "stable"))))) := by
  have h110 : (mkRat 1 10 : Rat) = 1/10 := by
    rw [Rat.mkRat_eq_div]
    norm_num
  have hcut : ∀ t : Int, t - 24 * 3600000 = t - 86400000 := by intro t; norm_num
  constructor
  · intro hlen
    rw [getTrend, if_pos hlen]
  · intro latest hlat
    refine ⟨getLatestValue_spec hlat, fun hlen => ⟨?_, ?_⟩⟩
    · intro hnone
      rw [getTrend, if_neg (by omega), hlat]
      simp only [hcut]
      rw [(pastSample_none_iff values (latest.time - 86400000)).mpr hnone]
    · intro past hpast
      have hkey : getTrend values 24 =
          (if past.value = 0 then "stable"
           else
             if jsDiv (jsSub latest.value past.value) past.value > mkRat 1 10 then "rising"
             else if jsDiv (jsSub latest.value past.value) past.value < -(mkRat 1 10) then
               "falling"
             else "stable") := by
        rw [getTrend, if_neg (by omega), hlat]
        simp only [hcut]
        rw [hpast]
      have hconv : jsDiv (jsSub latest.value past.value) past.value =
          (latest.value - past.value) / past.value := by
        rw [jsSub_eq, jsDiv_eq]
      refine ⟨pastSample_some hpast, fun hz => ?_, fun hnz => ⟨?_, ?_, ?_⟩⟩
      · rw [hkey, if_pos hz]
      · intro hgt
        rw [hkey, if_neg (by
          intro h
          rw [h] at hnz
          exact hnz rfl)]
        rw [hconv, h110, if_pos hgt]
      · intro hlt
        rw [hkey, if_neg (by
          intro h
          rw [h] at hnz
          exact hnz rfl)]
        rw [hconv, h110, if_neg (by linarith), if_pos hlt]
      · intro hge hle
        rw [hkey, if_neg (by
          intro h
          rw [h] at hnz
          exact hnz rfl)]
        rw [hconv, h110, if_neg (by linarith), if_neg (by linarith)]

/-- witness for C2 at a concrete input: a single-sample list is classified
"stable". -/
theorem getTrend_witness : getTrend [⟨0, 5⟩] 24 = "stable" :=
  (getTrend_spec [⟨0, 5⟩]).1 (by decide)

/-- the discharge step never adds a negative discharge value. -/
theorem usbrQStep_discharge_nonneg (qIdx : Option Nat) (cols : List (List Char))
    (dt : Int) (acc : SeriesSet) (hacc : ∀ s ∈ acc.discharge, 0 ≤ s.value) :
    ∀ s ∈ (usbrQStep qIdx cols dt acc).discharge, 0 ≤ s.value := by
  intro s hs
  rw [usbrQStep.eq_def] at hs
  split at hs
  · split at hs
    · split at hs
      · rename_i val hval hle
        rcases List.mem_append.mp hs with hmem | hmem
        · exact hacc s hmem
        · have hseq : s = ⟨dt, val⟩ := by simpa using hmem
          rw [hseq]
          exact hle
      · exact hacc s hs
    · exact hacc s hs
  · exact hacc s hs

/-- the water-temperature step leaves the discharge series unchanged. -/
theorem usbrTwStep_discharge (twIdx : Option Nat) (cols : List (List Char))
    (dt : Int) (acc1 : SeriesSet) :
    (usbrTwStep twIdx cols dt acc1).discharge = acc1.discharge := by
  rw [usbrTwStep.eq_def]
  split
  · split
    · rfl
    · rfl
  · rfl

/-- a row step never adds a negative discharge value. -/
theorem usbrRow_discharge_nonneg (qIdx twIdx : Option Nat) (acc : SeriesSet)
    (line : List Char) (hacc : ∀ s ∈ acc.discharge, 0 ≤ s.value) :
    ∀ s ∈ (usbrRow qIdx twIdx acc line).discharge, 0 ≤ s.value := by
  intro s hs
  rw [usbrRow] at hs
  split at hs
  · exact hacc s hs
  · split at hs
    · exact hacc s hs
    · rename_i dt hdt
      rw [usbrTwStep_discharge] at hs
      exact usbrQStep_discharge_nonneg _ _ _ _ hacc s hs

/-- folding row steps preserves discharge non-negativity. -/
theorem usbrRows_discharge_nonneg (qIdx twIdx : Option Nat) :
    ∀ (rows : List (List Char)) (acc : SeriesSet),
      (∀ s ∈ acc.discharge, 0 ≤ s.value) →
      ∀ s ∈ (rows.foldl (usbrRow qIdx twIdx) acc).discharge, 0 ≤ s.value := by
  intro rows
  induction rows with
  | nil => exact fun acc hacc => hacc
  | cons r t ih =>
    intro acc hacc
    rw [List.foldl_cons]
    exact ih _ (usbrRow_discharge_nonneg _ _ _ _ hacc)

/-- C6: parsing the header `DateTime,easw_q,easw_tw` with row
`2026-02-18 17:30,326.57,41.0` for station `easw` yields exactly one
discharge sample 326.57 and one water-temperature sample 105.8 °F (the
conversion of 41.0 °C) at the row's timestamp; on every input, discharge
values below zero contribute no sample, and input with no `DateTime`
header yields empty series (and the parser is a total function, so no
exception escapes). -/
theorem parseUSBRCSV_spec :
    (parseUSBRCSV "DateTime,easw_q,easw_tw\n2026-02-18 17:30,326.57,41.0" "easw" =
        ⟨[⟨65121471000000, mkRat 32657 100⟩], [⟨65121471000000, mkRat 529 5⟩], []⟩ ∧
      (mkRat 32657 100 : Rat) = 32657/100 ∧
      (mkRat 529 5 : Rat) = 1058/10 ∧ ((41 : Rat) * 9 / 5 + 32 = 1058/10)) ∧
    (∀ text station, ∀ s ∈ (parseUSBRCSV text station).discharge, 0 ≤ s.value) ∧
    (∀ text station,
      (∀ l ∈ ((splitOnChar '\n' text.data).map wsTrim).filter (fun l => !l.isEmpty),
        ¬ ("datetime".data.isPrefixOf (l.map Char.toLower) = true)) →
      parseUSBRCSV text station = SeriesSet.empty) := by
  refine ⟨⟨by decide, ?_, ?_, ?_⟩, ?_, ?_⟩
  · rw [Rat.mkRat_eq_div]
    norm_num
  · rw [Rat.mkRat_eq_div]
    norm_num
  · norm_num
  · intro text station s hs
    rw [parseUSBRCSV] at hs
    split at hs
    · exact absurd hs (by simp [SeriesSet.empty])
    · split at hs
      · exact absurd hs (by simp [SeriesSet.empty])
      · exact usbrRows_discharge_nonneg _ _ _ _
          (fun s' hs' => absurd hs' (by simp [SeriesSet.empty])) s hs
  · intro text station hnone
    rw [parseUSBRCSV]
    split
    · rfl
    · rw [List.findIdx?_eq_none_iff.mpr (fun l hl => Bool.eq_false_iff.mpr (hnone l hl))]

/-- witness for C6: the concrete discharge sample the parser produced is
non-negative, and a header-free input parses to empty series. -/
theorem parseUSBRCSV_witness :
    (0 : Rat) ≤ mkRat 32657 100 ∧
    parseUSBRCSV "garbage with no header" "easw" = SeriesSet.empty :=
  ⟨parseUSBRCSV_spec.2.1 "DateTime,easw_q,easw_tw\n2026-02-18 17:30,326.57,41.0" "easw"
      ⟨65121471000000, mkRat 32657 100⟩ (by decide),
   parseUSBRCSV_spec.2.2 "garbage with no header" "easw" (by decide)⟩

/-- a decimal digit is not in the whitespace class. -/
theorem isWsChar_false_of_isDigit {c : Char} (h : c.isDigit = true) :
    isWsChar c = false := by
  by_contra hne
  have h' : isWsChar c = true := by
    cases hw : isWsChar c
    · exact absurd hw hne
    · rfl
  simp only [isWsChar, Bool.or_eq_true, beq_iff_eq] at h'
  rcases h' with ((h1 | h1) | h1) | h1 <;> subst h1 <;> exact absurd h (by decide)

/-- `parseFloat` of a digit-led character list never yields a negative
value: the sign position is occupied by a digit, so the significand and
exponent scaling are built from naturals only. -/
theorem jsParseFloatChars_nonneg {c : Char} {cs : List Char} (hd : c.isDigit = true)
    {v : Rat} (h : jsParseFloatChars (c :: cs) = some v) : 0 ≤ v := by
  have hws : isWsChar c = false := isWsChar_false_of_isDigit hd
  have hminus : c ≠ '-' := by rintro rfl; exact absurd hd (by decide)
  have hplus : c ≠ '+' := by rintro rfl; exact absurd hd (by decide)
  simp only [jsParseFloatChars, List.dropWhile_cons, hws, Bool.false_eq_true, if_false] at h
  have hsgn : (match c :: cs with
      | '-' :: t => ((-1 : Rat), t)
      | '+' :: t => ((1 : Rat), t)
      | _ => ((1 : Rat), c :: cs)) = ((1 : Rat), c :: cs) := by
    split
    · rename_i t heq
      exact absurd (List.cons.inj heq).1 hminus
    · rename_i t heq
      exact absurd (List.cons.inj heq).1 hplus
    · rfl
  rw [hsgn] at h
  simp only [] at h
  split at h
  · exact absurd h (by simp)
  · have hv := (Option.some.inj h).symm
    rw [hv]
    split
    · simp only [jsDiv_eq, jsMul_eq, jsAdd_eq, Rat.mkRat_eq_div]
      positivity
    · simp only [jsMul_eq, jsAdd_eq, Rat.mkRat_eq_div]
      positivity

/-- every match of the NWRFC row pattern captures a digit-led numeral: a
leading minus sign can never occupy the capture. -/
theorem nwrfcMatchAt_capture {cs : List Char} {d v : String} {rest : List Char}
    (h : nwrfcMatchAt cs = some (d, v, rest)) :
    ∃ c t, v.data = c :: t ∧ c.isDigit = true := by
  rw [nwrfcMatchAt.eq_def] at h
  split at h
  · split at h
    · split at h
      · exact absurd h (by simp)
      · rename_i rest2 hstrip
        simp only [] at h
        split at h
        · exact absurd h (by simp)
        · rename_i hne
          simp only [Option.some.injEq, Prod.mk.injEq] at h
          obtain ⟨-, hv, -⟩ := h
          cases hid : rest2.takeWhile Char.isDigit with
          | nil => rw [hid] at hne; simp at hne
          | cons c0 t0 =>
            have hc0 : c0.isDigit = true :=
              List.mem_takeWhile_imp (hid ▸ List.mem_cons_self c0 t0)
            rw [hid] at hv
            split at hv
            · rename_i cs2 tdot heqdot
              refine ⟨c0, t0 ++ '.' :: List.takeWhile Char.isDigit tdot, ?_, hc0⟩
              rw [← hv]
              rfl
            · refine ⟨c0, t0, ?_, hc0⟩
              rw [← hv]
    · exact absurd h (by simp)
  · exact absurd h (by simp)

/-- every pair produced by the scanner has a digit-led numeral capture. -/
theorem nwrfcScanAux_capture :
    ∀ (fuel : Nat) (cs : List Char) (m : String × String),
      m ∈ nwrfcScanAux fuel cs → ∃ c t, m.2.data = c :: t ∧ c.isDigit = true := by
  intro fuel
  induction fuel with
  | zero =>
    intro cs m hm
    simp [nwrfcScanAux] at hm
  | succ f ih =>
    intro cs m hm
    cases cs with
    | nil => simp [nwrfcScanAux] at hm
    | cons c0 cs0 =>
      rw [nwrfcScanAux] at hm
      cases hmt : nwrfcMatchAt (c0 :: cs0) with
      | some dvr =>
        rw [hmt] at hm
        rcases List.mem_cons.mp hm with heq | hmem
        · obtain ⟨dd, vv, rr⟩ := dvr
          obtain ⟨c, t, hdata, hdig⟩ := nwrfcMatchAt_capture hmt
          rw [heq]
          exact ⟨c, t, hdata, hdig⟩
        · exact ih _ _ hmem
      | none =>
        rw [hmt] at hm
        exact ih _ _ hm

set_option maxRecDepth 40000 in
/-- C10: every sample emitted by the NWRFC HTML temperature parser has a
non-negative value and a timestamp at or after the lookback cutoff
`now - days * 86400000`; and a row whose value carries a leading minus
sign never matches the extraction pattern, as the concrete below-zero row
shows by parsing to the empty list. -/
theorem parseNWRFCTempHTML_spec :
    (∀ html days now, ∀ s ∈ parseNWRFCTempHTML html days now,
      0 ≤ s.value ∧ now - days * 86400000 ≤ s.time) ∧
    parseNWRFCTempHTML
      "<td align=\"right\">2026-02-23 13:30</td><td align=\"right\">-41.9</td>"
      10 65121888600000 = [] := by
  constructor
  · intro html days now s hs
    rw [parseNWRFCTempHTML] at hs
    obtain ⟨m, hm, hf⟩ := List.mem_filterMap.mp hs
    split at hf
    · rename_i dt val hdt hval
      split at hf
      · rename_i hge
        have hseq : s = ⟨dt, val⟩ := by
          have := Option.some.inj hf
          exact this.symm
        obtain ⟨c, t, hvdata, hcdig⟩ := nwrfcScanAux_capture _ _ m hm
        have hval0 : jsParseFloatChars m.2.data = some val := hval
        rw [hvdata] at hval0
        rw [hseq]
        exact ⟨jsParseFloatChars_nonneg hcdig hval0, by simpa using hge⟩
      · exact absurd hf (by simp)
    · exact absurd hf (by simp)
  · decide

set_option maxRecDepth 40000 in
/-- witness for C10: the sample parsed from a well-formed row is
non-negative and within the 10-day lookback window. -/
theorem parseNWRFCTempHTML_witness :
    0 ≤ (Sample.mk 65121888600000 (mkRat 419 10)).value ∧
    (65121888600000 : Int) - 10 * 86400000 ≤ (Sample.mk 65121888600000 (mkRat 419 10)).time :=
  parseNWRFCTempHTML_spec.1
    "<td align=\"right\">2026-02-23 13:30</td><td align=\"right\">41.9</td>"
    10 65121888600000 ⟨65121888600000, mkRat 419 10⟩ (by decide)

theorem lookupDay_pushDay_same (m : List (String × DayAgg)) (k : String) (t p : Rat) :
    lookupDay (pushDay m k t p) k = some (match lookupDay m k with
      | none => ⟨labelOfKey k, [t], [p]⟩
      | some a => ⟨a.label, a.temps ++ [t], a.precips ++ [p]⟩) := by
  induction m with
  | nil => simp [pushDay, lookupDay]
  | cons e rest ih =>
    obtain ⟨k', a⟩ := e
    by_cases hk : k' = k
    · subst hk
      simp [pushDay, lookupDay, List.find?_cons]
    · simp only [pushDay, if_neg hk, lookupDay, List.find?_cons]
      have hbeq : (k' == k) = false := beq_eq_false_iff_ne.mpr hk
      simp only [hbeq]
      exact ih

theorem lookupDay_pushDay_other (m : List (String × DayAgg)) (k k' : String)
    (t p : Rat) (hne : k' ≠ k) :
    lookupDay (pushDay m k t p) k' = lookupDay m k' := by
  induction m with
  | nil =>
    simp [pushDay, lookupDay, List.find?_cons, beq_eq_false_iff_ne.mpr (Ne.symm hne)]
  | cons e rest ih =>
    obtain ⟨k'', a⟩ := e
    by_cases hk : k'' = k
    · subst hk
      have hb : (k'' == k') = false := beq_eq_false_iff_ne.mpr (fun h => hne h.symm)
      simp [pushDay, lookupDay, List.find?_cons, hb]
    · simp only [pushDay, if_neg hk, lookupDay, List.find?_cons]
      cases hbeq : (k'' == k')
      · exact ih
      · rfl

theorem keys_pushDay (m : List (String × DayAgg)) (k : String) (t p : Rat) :
    (pushDay m k t p).map Prod.fst =
      if k ∈ m.map Prod.fst then m.map Prod.fst else m.map Prod.fst ++ [k] := by
  induction m with
  | nil => simp [pushDay]
  | cons e rest ih =>
    obtain ⟨k', a⟩ := e
    by_cases hk : k' = k
    · subst hk
      simp [pushDay]
    · simp only [pushDay, if_neg hk, List.map_cons, List.mem_cons]
      rw [ih]
      by_cases hmem : k ∈ rest.map Prod.fst
      · simp [hmem, hk]
      · have hkk' : ¬ k = k' := fun h => hk h.symm
        simp [hmem, hkk']

theorem nodup_keys_pushDay (m : List (String × DayAgg)) (k : String) (t p : Rat)
    (h : (m.map Prod.fst).Nodup) : ((pushDay m k t p).map Prod.fst).Nodup := by
  rw [keys_pushDay]
  split
  · exact h
  · rename_i hnotmem
    simp [List.nodup_append, h, hnotmem]

theorem lookupDay_eq_none_iff (m : List (String × DayAgg)) (k : String) :
    lookupDay m k = none ↔ k ∉ m.map Prod.fst := by
  rw [lookupDay, Option.map_eq_none']
  rw [List.find?_eq_none]
  constructor
  · intro h hk
    obtain ⟨e, he, hfst⟩ := List.mem_map.mp hk
    exact absurd (by rw [hfst]; simp : (e.1 == k) = true) (by simpa using h e he)
  · intro h e he
    intro hbeq
    exact h (List.mem_map.mpr ⟨e, he, by simpa using hbeq⟩)

theorem mem_iff_lookupDay (m : List (String × DayAgg))
    (hnd : (m.map Prod.fst).Nodup) (k : String) (a : DayAgg) :
    (k, a) ∈ m ↔ lookupDay m k = some a := by
  induction m with
  | nil => simp [lookupDay]
  | cons e rest ih =>
    obtain ⟨k', a'⟩ := e
    simp only [List.map_cons, List.nodup_cons] at hnd
    obtain ⟨hk'notin, hndrest⟩ := hnd
    by_cases hk : k' = k
    · subst hk
      simp only [lookupDay, List.find?_cons, beq_self_eq_true]
      constructor
      · intro hmem
        rcases List.mem_cons.mp hmem with heq | hmem'
        · simp [Prod.mk.injEq] at heq
          simp [heq]
        · exact absurd (List.mem_map.mpr ⟨(k', a), hmem', rfl⟩) hk'notin
      · intro hsome
        have : a' = a := by simpa using hsome
        simp [this]
    · have hb : (k' == k) = false := beq_eq_false_iff_ne.mpr hk
      simp only [lookupDay, List.find?_cons, hb, List.mem_cons]
      rw [← lookupDay]
      constructor
      · rintro (heq | hmem')
        · exact absurd ((Prod.mk.injEq .. ▸ heq).1).symm hk
        · exact (ih hndrest).mp hmem'
      · intro hsome
        exact Or.inr ((ih hndrest).mpr hsome)

theorem buildDayMap_spec (dateKey : Int → String) (ts : List Int) (tempK precM : List Rat) :
    ∀ j,
      ((buildDayMap dateKey ts tempK precM j).map Prod.fst).Nodup ∧
      ∀ k, lookupDay (buildDayMap dateKey ts tempK precM j) k =
        if groupIdxUpTo dateKey ts j k = [] then none
        else some ⟨labelOfKey k,
          (groupIdxUpTo dateKey ts j k).map (fun i => kToF (tempK.getD i (mkRat 27315 100))),
          (groupIdxUpTo dateKey ts j k).map (fun i => mToIn (precM.getD i 0))⟩ := by
  intro j
  induction j with
  | zero =>
    constructor
    · simp [buildDayMap]
    · intro k
      simp [buildDayMap, lookupDay, groupIdxUpTo]
  | succ j ih =>
    obtain ⟨ihnd, ihlk⟩ := ih
    have hstep : buildDayMap dateKey ts tempK precM (j + 1)
        = pushDay (buildDayMap dateKey ts tempK precM j)
            (dateKey (ts.getD j 0))
            (kToF (tempK.getD j (mkRat 27315 100)))
            (mToIn (precM.getD j 0)) := by
      rw [buildDayMap, List.range_succ, List.foldl_append]
      rfl
    refine ⟨by rw [hstep]; exact nodup_keys_pushDay _ _ _ _ ihnd, ?_⟩
    intro k
    rw [hstep]
    have hgrp : groupIdxUpTo dateKey ts (j + 1) k =
        groupIdxUpTo dateKey ts j k ++
          (if dateKey (ts.getD j 0) == k then [j] else []) := by
      rw [groupIdxUpTo, List.range_succ, List.filter_append, groupIdxUpTo]
      congr 1
      simp [List.filter_cons]
    by_cases hk : dateKey (ts.getD j 0) = k
    · rw [hk, lookupDay_pushDay_same, ihlk k, hgrp]
      rw [hk]
      simp only [beq_self_eq_true, if_true]
      by_cases hemp : groupIdxUpTo dateKey ts j k = []
      · simp [hemp]
      · simp [hemp]
    · rw [lookupDay_pushDay_other _ _ _ _ _ (fun h => hk h.symm), ihlk k, hgrp]
      have hb : (dateKey (ts.getD j 0) == k) = false := beq_eq_false_iff_ne.mpr hk
      have hk' : ¬ dateKey (ts[j]?.getD 0) = k := by
        simpa [List.getD_eq_getElem?_getD] using hk
      simp [hb, hk']

/-- C7: the daily aggregation of `parseWindyResponse` groups all timesteps
by calendar-date key (the timezone conversion abstracted as `dateKey`),
takes each day's high as the maximum converted temperature and low as the
minimum, sums the day's converted precipitation, sorts the days ascending
by date key, and emits at most 7 entries. -/
theorem parseWindyDaily_spec (dateKey : Int → String) (ts : List Int)
    (tempK precM : List Rat) :
    ∃ keys : List String,
      List.Pairwise (fun a b => lexLeChars a.data b.data = true) keys ∧
      keys.Nodup ∧
      (∀ k, k ∈ keys ↔ ∃ i, i < ts.length ∧ dateKey (ts.getD i 0) = k) ∧
      parseWindyDaily dateKey ts tempK precM = (keys.take 7).map (fun k =>
        ⟨labelOfKey k, listMax (groupTemps dateKey ts tempK k),
         listMin (groupTemps dateKey ts tempK k),
         (groupPrecips dateKey ts precM k).foldl jsAdd 0⟩) ∧
      (parseWindyDaily dateKey ts tempK precM).length ≤ 7 := by
  obtain ⟨hnd, hlk⟩ := buildDayMap_spec dateKey ts tempK precM ts.length
  have hpw : parseWindyDaily dateKey ts tempK precM
      = ((List.insertionSort keyLE (buildDayMap dateKey ts tempK precM ts.length)).take 7).map
          (fun e => ⟨e.2.label, listMax e.2.temps, listMin e.2.temps,
            e.2.precips.foldl jsAdd 0⟩) := rfl
  have hperm := List.perm_insertionSort keyLE (buildDayMap dateKey ts tempK precM ts.length)
  have hpairs := List.sorted_insertionSort keyLE (buildDayMap dateKey ts tempK precM ts.length)
  refine ⟨(List.insertionSort keyLE (buildDayMap dateKey ts tempK precM ts.length)).map
    Prod.fst, ?_, ?_, ?_, ?_, ?_⟩
  · exact hpairs.map Prod.fst (fun a b h => h)
  · exact ((hperm.map Prod.fst).nodup_iff).mpr hnd
  · intro k
    constructor
    · intro hkmem
      obtain ⟨e, he, hek⟩ := List.mem_map.mp hkmem
      subst hek
      have hem : e ∈ buildDayMap dateKey ts tempK precM ts.length := hperm.subset he
      have hkin : e.1 ∈ (buildDayMap dateKey ts tempK precM ts.length).map Prod.fst :=
        List.mem_map.mpr ⟨e, hem, rfl⟩
      have hln : lookupDay (buildDayMap dateKey ts tempK precM ts.length) e.1 ≠ none :=
        fun h => (lookupDay_eq_none_iff _ e.1).mp h hkin
      rw [hlk e.1] at hln
      by_cases hemp : groupIdxUpTo dateKey ts ts.length e.1 = []
      · rw [if_pos hemp] at hln
        exact absurd rfl hln
      · obtain ⟨i, hi⟩ := List.exists_mem_of_ne_nil _ hemp
        have hif := List.mem_filter.mp hi
        exact ⟨i, List.mem_range.mp hif.1, by simpa using hif.2⟩
    · rintro ⟨i, hi, hk⟩
      have himem : i ∈ groupIdxUpTo dateKey ts ts.length k :=
        List.mem_filter.mpr ⟨List.mem_range.mpr hi, by simpa using hk⟩
      have hemp : groupIdxUpTo dateKey ts ts.length k ≠ [] := by
        intro h
        rw [h] at himem
        exact absurd himem (by simp)
      have hlq := hlk k
      rw [if_neg hemp] at hlq
      obtain ⟨e, hfind⟩ : ∃ e,
          (buildDayMap dateKey ts tempK precM ts.length).find? (fun e => e.1 == k)
            = some e := by
        rcases hfe : (buildDayMap dateKey ts tempK precM ts.length).find?
            (fun e => e.1 == k) with _ | e
        · rw [lookupDay, hfe] at hlq
          exact absurd hlq (by simp)
        · exact ⟨e, hfe⟩
      have hemem := List.mem_of_find?_eq_some hfind
      have hek : e.1 = k := by simpa using List.find?_some hfind
      exact List.mem_map.mpr ⟨e, hperm.mem_iff.mpr hemem, hek⟩
  · rw [hpw, ← List.map_take, List.map_map]
    apply List.map_congr_left
    intro e he
    have hem : e ∈ buildDayMap dateKey ts tempK precM ts.length :=
      hperm.subset (List.mem_of_mem_take he)
    have hpair : (e.1, e.2) ∈ buildDayMap dateKey ts tempK precM ts.length := by
      simpa using hem
    have hlq := (mem_iff_lookupDay _ hnd e.1 e.2).mp hpair
    rw [hlk e.1] at hlq
    by_cases hemp : groupIdxUpTo dateKey ts ts.length e.1 = []
    · rw [if_pos hemp] at hlq
      exact absurd hlq (by simp)
    · rw [if_neg hemp] at hlq
      have he2 : e.2 = ⟨labelOfKey e.1,
          (groupIdxUpTo dateKey ts ts.length e.1).map
            (fun i => kToF (tempK.getD i (mkRat 27315 100))),
          (groupIdxUpTo dateKey ts ts.length e.1).map
            (fun i => mToIn (precM.getD i 0))⟩ := by
        simpa using hlq.symm
      simp only [Function.comp_apply, he2, groupTemps, groupPrecips]
  · rw [hpw]
    rw [List.length_map]
    exact List.length_take_le 7 _

/-- witness for C7: the daily aggregation characterization instantiated at
a concrete three-timestep forecast spanning two date keys. -/
theorem parseWindyDaily_witness :
    ∃ keys : List String,
      List.Pairwise (fun a b => lexLeChars a.data b.data = true) keys ∧
      keys.Nodup ∧
      (∀ k, k ∈ keys ↔ ∃ i, i < ([0, 7, 3] : List Int).length ∧
        (fun t : Int => if t < 5 then "2026-01-01" else "2026-01-02")
          (([0, 7, 3] : List Int).getD i 0) = k) ∧
      parseWindyDaily (fun t : Int => if t < 5 then "2026-01-01" else "2026-01-02")
        [0, 7, 3] [300, 280, 290] [0, 1, 2] = (keys.take 7).map (fun k =>
          ⟨labelOfKey k,
           listMax (groupTemps (fun t : Int => if t < 5 then "2026-01-01" else "2026-01-02")
             [0, 7, 3] [300, 280, 290] k),
           listMin (groupTemps (fun t : Int => if t < 5 then "2026-01-01" else "2026-01-02")
             [0, 7, 3] [300, 280, 290] k),
           (groupPrecips (fun t : Int => if t < 5 then "2026-01-01" else "2026-01-02")
             [0, 7, 3] [0, 1, 2] k).foldl jsAdd 0⟩) ∧
      (parseWindyDaily (fun t : Int => if t < 5 then "2026-01-01" else "2026-01-02")
        [0, 7, 3] [300, 280, 290] [0, 1, 2]).length ≤ 7 := by
  exact parseWindyDaily_spec (fun t : Int => if t < 5 then "2026-01-01" else "2026-01-02")
    [0, 7, 3] [300, 280, 290] [0, 1, 2]
